import Mathlib

/-!
# Verification of mkrpki against its specification

A shallow embedding of `src/main.rs` of NLnetLabs/mkrpki, the tool that mints
RPKI objects (trust-anchor and CA certificates, CRLs, ROAs, manifests).

Pure computations (validity resolution, resource-extension construction, ROA
prefix parsing, manifest digest listing, TAL text assembly) are translated
directly from the source.  The external collaborators (the `rpki` crate's
value constructors, the signer, the digest function, base64, the file system)
are modelled at their interface boundary; each such definition carries a doc
comment saying what it stands for.  The five `run` functions are embedded as
functions from arguments and an environment to a trace of observable effects
(key loads, file reads, signing, file writes) plus a result.
-/

deriving instance DecidableEq for Except

/-! ## Time and validity resolution -/

/-- Absolute timestamps (`rpki::x509::Time`, backed by chrono), modelled as
integers with second granularity. -/
abbrev Time := Int

/-- `chrono::Duration::days(d)` as a number of seconds. -/
def durationDays (d : Int) : Int := 86400 * d

/-- Modelled from the spec: `rpki::x509::Validity` is a plain pair of
timestamps; its constructor `Validity::new` stores the two fields without any
ordering check. -/
structure Validity where
  notBefore : Time
  notAfter : Time
deriving DecidableEq, Repr

/-- The end-time resolution chain that every subcommand of `main.rs` inlines:
an explicit end time wins, else start plus a day count, else a configuration
error with the subcommand's message (`Ta::run`, `Cert::run`, `Crl::run`,
`Roa::run`, `Mft::run`). -/
def resolveEnd (start : Time) (endTime : Option Time) (days : Option Int)
    (msg : String) : Except String Time :=
  match endTime with
  | some e => .ok e
  | none =>
    match days with
    | some d => .ok (start + durationDays d)
    | none => .error msg

/-- The validity pair as constructed by the subcommands: the resolved end time
paired with the (explicit or defaulted) start time. -/
def resolveValidity (notBefore : Time) (notAfter : Option Time)
    (days : Option Int) (msg : String) : Except String Validity :=
  (resolveEnd notBefore notAfter days msg).map (fun e => ⟨notBefore, e⟩)

/-- Error message used by the certificate/ROA/manifest validity resolution. -/
def validityMsg : String := "Either --not-after or --days must be given."

/-- Error message used by the CRL/manifest next-update resolution. -/
def nextUpdateMsg : String := "Either --next-update or --next-days must be given."

/-! ## Keys, names and certificate values

The `rpki` crate's certificate value is modelled at its interface boundary:
an inert record of the fields `main.rs` sets, with the resource extensions as
the tri-state the crate's setters produce. -/

/-- Modelled from the spec: a subject public key info held by the key store
capability, identified by its DER info bytes. -/
structure PublicKey where
  info : List Nat
deriving DecidableEq, Repr

/-- An X.509 name; `main.rs` only ever builds names from a public key via
`to_subject_name`. -/
inductive Name where
  | ofKey (k : PublicKey)
deriving DecidableEq, Repr

/-- A key identifier, derived from a public key via `key_identifier`. -/
inductive KeyIdentifier where
  | ofKey (k : PublicKey)
deriving DecidableEq, Repr

def PublicKey.toSubjectName (k : PublicKey) : Name := .ofKey k

def PublicKey.keyIdentifier (k : PublicKey) : KeyIdentifier := .ofKey k

/-- `PublicKey::to_info_bytes`: the DER encoding of the key info. -/
def PublicKey.toInfoBytes (k : PublicKey) : List Nat := k.info

inductive KeyUsage where
  | ca
  | ee
deriving DecidableEq, Repr

inductive Overclaim where
  | refuse
  | trim
deriving DecidableEq, Repr

/-- An opaque IP address block (`rpki::resources::IpBlock`); parsed by the
crate from the command line and passed through untouched by `main.rs`. -/
structure IpBlock where
  lo : Nat
  hi : Nat
deriving DecidableEq, Repr

/-- An opaque AS number block (`rpki::resources::AsBlock`). -/
structure AsBlock where
  lo : Nat
  hi : Nat
deriving DecidableEq, Repr

/-- Per-family resource extension state: omitted, inherited from the issuer,
or an explicit ordered block list (spec section 3). -/
inductive ResourceSet (α : Type) where
  | absent
  | inherited
  | blocks (l : List α)
deriving DecidableEq, Repr

/-- Modelled from the spec: the to-be-signed certificate value built through
`rpki::cert::TbsCert`.  Only the fields `main.rs` touches are carried. -/
structure TbsCert where
  serial : Nat
  issuer : Name
  validity : Validity
  subjectPublicKey : PublicKey
  keyUsage : KeyUsage
  overclaim : Overclaim
  basicCa : Option Bool
  authorityKeyIdentifier : Option KeyIdentifier
  caRepository : Option String
  rpkiManifest : Option String
  rpkiNotify : Option String
  crlUri : Option String
  caIssuer : Option String
  v4Resources : ResourceSet IpBlock
  v6Resources : ResourceSet IpBlock
  asResources : ResourceSet AsBlock
deriving DecidableEq, Repr

/-- Modelled from the spec: `TbsCert::new` — every optional extension starts
out unset and each family's resource extension starts out absent. -/
def TbsCert.new (serial : Nat) (issuer : Name) (validity : Validity)
    (subjectPublicKey : PublicKey) (keyUsage : KeyUsage)
    (overclaim : Overclaim) : TbsCert :=
  { serial, issuer, validity, subjectPublicKey, keyUsage, overclaim,
    basicCa := none, authorityKeyIdentifier := none, caRepository := none,
    rpkiManifest := none, rpkiNotify := none, crlUri := none,
    caIssuer := none, v4Resources := .absent, v6Resources := .absent,
    asResources := .absent }

/-- Modelled from the spec: the to-be-signed CRL value built through
`rpki::crl::TbsCertList` in `Crl::run`. -/
structure TbsCertList where
  issuer : Name
  thisUpdate : Time
  nextUpdate : Time
  revoked : List (Nat × Time)
  authorityKeyIdentifier : KeyIdentifier
  crlNumber : Nat
deriving DecidableEq, Repr

/-! ## The Rust standard library IP address parser

`RoaPrefix::from_str` in `main.rs` delegates address parsing to
`std::net::IpAddr::from_str`.  The standard library's parser
(`core::net::parser`) is reproduced here over lists of characters: digits are
read greedily with checked arithmetic, an IPv4 address is four dot-separated
decimal octets without leading zeros, an IPv6 address is colon-separated
hexadecimal groups with one optional `::` and an optional embedded trailing
IPv4 address, and the whole input must be consumed. -/

abbrev PChars := List Char

/-- Rust `char::to_digit`. -/
def charDigit (radix : Nat) (c : Char) : Option Nat :=
  let v :=
    if '0' ≤ c ∧ c ≤ '9' then some (c.toNat - '0'.toNat)
    else if 'a' ≤ c ∧ c ≤ 'z' then some (c.toNat - 'a'.toNat + 10)
    else if 'A' ≤ c ∧ c ≤ 'Z' then some (c.toNat - 'A'.toNat + 10)
    else none
  match v with
  | some v => if v < radix then some v else none
  | none => none

/-- Pop one expected character (`Parser::read_given_char`). -/
def expectChar (c : Char) : PChars → Option PChars
  | [] => none
  | x :: xs => if x = c then some xs else none

/-- The digit loop of `Parser::read_number`: accumulate digits with checked
arithmetic bounded by `maxVal`; fail outright on overflow or on more than
`maxDigits` digits; stop at the first non-digit. -/
def readDigits (radix : Nat) (maxDigits : Option Nat) (maxVal : Nat) :
    PChars → Nat → Nat → Option (Nat × Nat × PChars)
  | [], acc, cnt => some (acc, cnt, [])
  | c :: cs, acc, cnt =>
    match charDigit radix c with
    | none => some (acc, cnt, c :: cs)
    | some d =>
      let v := acc * radix + d
      if v > maxVal then none
      else
        match maxDigits with
        | some m =>
          if cnt + 1 > m then none
          else readDigits radix maxDigits maxVal cs v (cnt + 1)
        | none => readDigits radix maxDigits maxVal cs v (cnt + 1)

/-- `Parser::read_number`: at least one digit, and a leading zero is only
allowed when the number is the single digit `0` (unless `allowZeroPfx`). -/
def readNumber (radix : Nat) (maxDigits : Option Nat) (maxVal : Nat)
    (allowZeroPfx : Bool) (cs : PChars) : Option (Nat × PChars) :=
  let hasLeadingZero := cs.head? = some '0'
  match readDigits radix maxDigits maxVal cs 0 0 with
  | none => none
  | some (v, cnt, rest) =>
    if cnt = 0 then none
    else if !allowZeroPfx && hasLeadingZero && cnt > 1 then none
    else some (v, rest)

/-- `Parser::read_ipv4_addr`: four dot-separated decimal octets, each at most
three digits, value at most 255, no leading zeros. -/
def readIpv4 (cs : PChars) : Option ((Nat × Nat × Nat × Nat) × PChars) := do
  let (a, cs) ← readNumber 10 (some 3) 255 false cs
  let cs ← expectChar '.' cs
  let (b, cs) ← readNumber 10 (some 3) 255 false cs
  let cs ← expectChar '.' cs
  let (c, cs) ← readNumber 10 (some 3) 255 false cs
  let cs ← expectChar '.' cs
  let (d, cs) ← readNumber 10 (some 3) 255 false cs
  some ((a, b, c, d), cs)

/-- One step of `read_groups`: a leading `:` is required for every group but
the first. -/
def sepThen (first : Bool) (cs : PChars) : Option PChars :=
  if first then some cs else expectChar ':' cs

/-- `read_groups` of the IPv6 parser: read up to `remaining` further
colon-separated 16-bit hexadecimal groups into `acc`; when at least two slots
remain, first try an embedded IPv4 address, which fills two groups and ends
the scan.  Returns the groups read, whether an embedded IPv4 address was
used, and the rest of the input at the point the scan stopped. -/
def readGroupsAux : Nat → Bool → PChars → List Nat → (List Nat × Bool × PChars)
  | 0, _, cs, acc => (acc, false, cs)
  | remaining + 1, first, cs, acc =>
    let v4try :=
      if remaining ≥ 1 then (sepThen first cs).bind readIpv4 else none
    match v4try with
    | some ((a, b, c, d), rest) =>
      (acc ++ [a * 256 + b, c * 256 + d], true, rest)
    | none =>
      match (sepThen first cs).bind (readNumber 16 (some 4) 65535 true) with
      | some (g, rest) => readGroupsAux remaining false rest (acc ++ [g])
      | none => (acc, false, cs)

def readGroups (limit : Nat) (cs : PChars) : List Nat × Bool × PChars :=
  readGroupsAux limit true cs []

/-- `Parser::read_ipv6_addr`: a head part of groups; if it has fewer than
eight groups it must not end in an embedded IPv4 address and must be followed
by `::` and a tail part, the gap being zero groups. -/
def readIpv6 (cs : PChars) : Option (List Nat × PChars) :=
  let headPart := readGroups 8 cs
  let head := headPart.1
  let headV4 := headPart.2.1
  let cs1 := headPart.2.2
  if head.length = 8 then some (head, cs1)
  else if headV4 then none
  else
    match expectChar ':' cs1 with
    | none => none
    | some cs2 =>
      match expectChar ':' cs2 with
      | none => none
      | some cs3 =>
        let tailPart := readGroups (8 - (head.length + 1)) cs3
        let tail := tailPart.1
        let cs4 := tailPart.2.2
        some (head ++ List.replicate (8 - head.length - tail.length) 0
              ++ tail, cs4)

/-- A parsed `std::net::IpAddr`. -/
inductive IpAddr where
  | v4 (a b c d : Nat)
  | v6 (groups : List Nat)
deriving DecidableEq, Repr

/-- `IpAddr::is_ipv4`. -/
def IpAddr.isV4 : IpAddr → Bool
  | .v4 _ _ _ _ => true
  | .v6 _ => false

/-- `Parser::read_ip_addr`: try IPv4 first; only if it fails entirely, try
IPv6 from the start. -/
def readIpAddr (cs : PChars) : Option (IpAddr × PChars) :=
  match readIpv4 cs with
  | some ((a, b, c, d), rest) => some (.v4 a b c d, rest)
  | none =>
    match readIpv6 cs with
    | some (g, rest) => some (.v6 g, rest)
    | none => none

/-- `IpAddr::from_str`: the parse succeeds only if it consumes the whole
input. -/
def parseIpAddrChars (cs : PChars) : Option IpAddr :=
  match readIpAddr cs with
  | some (ip, []) => some ip
  | _ => none

/-! ## The ROA prefix parser (`RoaPrefix::from_str`) -/

/-- Split a character list at the first occurrence of `c` (Rust
`str::find` plus slicing); `none` when `c` does not occur. -/
def splitFirst (c : Char) : PChars → Option (PChars × PChars)
  | [] => none
  | x :: xs =>
    if x = c then some ([], xs)
    else
      match splitFirst c xs with
      | some (a, b) => some (x :: a, b)
      | none => none

/-- Rust `u8::from_str`: an optional leading `+`, then decimal digits with
checked arithmetic in `u8`. -/
def parseU8Digits : PChars → Nat → Option Nat
  | [], acc => some acc
  | c :: cs, acc =>
    match charDigit 10 c with
    | none => none
    | some d =>
      let v := acc * 10 + d
      if v > 255 then none else parseU8Digits cs v

def parseU8 : PChars → Option Nat
  | [] => none
  | '+' :: rest => if rest = [] then none else parseU8Digits rest 0
  | cs => parseU8Digits cs 0

/-- `rpki::roa::RoaIpAddress` as built by `RoaIpAddress::new_addr`: the
address together with the prefix length and the optional max length. -/
structure RoaIpAddress where
  addr : IpAddr
  len : Nat
  maxLen : Option Nat
deriving DecidableEq, Repr

/-- The `RoaPrefix` struct of `main.rs`: the family flag inferred from the
address, plus the typed address entry. -/
structure RoaPrefix where
  v4 : Bool
  pfx : RoaIpAddress
deriving DecidableEq, Repr

def roaErr (s : String) : String := "Invalid ROA prefix '" ++ s ++ "'"

/-- `RoaPrefix::from_str`: split once on `-` to isolate an optional
max-length suffix, split the remainder once on `/`, parse the address as an
IP literal and the two numbers as `u8`; any failure yields the one error
message naming the whole input. -/
def RoaPrefix.fromStr (s : String) : Except String RoaPrefix :=
  let parts :=
    match splitFirst '-' s.data with
    | some (a, b) => (a, some b)
    | none => (s.data, none)
  match splitFirst '/' parts.1 with
  | none => .error (roaErr s)
  | some (addrCs, lenCs) =>
    match parseIpAddrChars addrCs with
    | none => .error (roaErr s)
    | some addr =>
      match parseU8 lenCs with
      | none => .error (roaErr s)
      | some len =>
        match parts.2 with
        | some maxCs =>
          match parseU8 maxCs with
          | some maxLen => .ok ⟨addr.isV4, ⟨addr, len, some maxLen⟩⟩
          | none => .error (roaErr s)
        | none => .ok ⟨addr.isV4, ⟨addr, len, none⟩⟩

/-- The partition loop at the top of `Roa::run`: each prefix is appended to
the IPv4 list when its family flag is set, and to the IPv6 list otherwise,
preserving order. -/
def roaPartition : List RoaPrefix → List RoaIpAddress × List RoaIpAddress
  | [] => ([], [])
  | p :: rest =>
    let t := roaPartition rest
    if p.v4 then (p.pfx :: t.1, t.2) else (t.1, p.pfx :: t.2)

/-! ## The manifest file lister (`Mft::run`, lines 721–755)

The file system and the digest capability are modelled at their interface:
each input file is a path together with the outcome of opening it, the final
path segment as a UTF-8 string when one exists, and the sequence of chunk
reads the open file yields.  The digest capability is modelled as the
identity on the accumulated byte stream: a `FileAndHash` entry carries the
exact bytes that were streamed into the digest. -/

/-- Modelled from the spec: one input file of a manifest run as the file
system presents it.  `openErr` is the error message when `File::open` fails;
`fileName` is `path.file_name().and_then(OsStr::to_str)`; `content` is the
successive chunks `Read::read` returns (an empty chunk signals end of file);
`readErr` is an error a further read would yield after `content` is
exhausted. -/
structure MFile where
  path : String
  openErr : Option String
  fileName : Option String
  content : List (List Nat)
  readErr : Option String
deriving DecidableEq, Repr

/-- Rust `str::is_ascii`. -/
def isAsciiStr (s : String) : Bool := s.data.all (fun c => c.toNat < 128)

/-- The chunked read loop: accumulate chunks until a read returns zero bytes
or the chunks are exhausted (end of file), or fail with a read error. -/
def runReads (acc : List Nat) : List (List Nat) → Option String →
    Except String (List Nat)
  | [], none => .ok acc
  | [], some e => .error e
  | c :: rest, re =>
    if c.isEmpty then .ok acc else runReads (acc ++ c) rest re

/-- The bytes the digest of a file accumulates, or the read error. -/
def fileBytes (f : MFile) : Except String (List Nat) :=
  runReads [] f.content f.readErr

/-- Processing of one file in `Mft::run`: open it, validate its name (the
final path segment must exist, be UTF-8 and be ASCII), then stream it through
the digest. -/
def processFile (f : MFile) : Except String (String × List Nat) :=
  match f.openErr with
  | some e => .error ("Cannot open file " ++ f.path ++ ": " ++ e)
  | none =>
    match f.fileName with
    | some name =>
      if isAsciiStr name then
        match fileBytes f with
        | .ok bytes => .ok (name, bytes)
        | .error e => .error ("Cannot read file " ++ f.path ++ ": " ++ e)
      else .error ("Illegal file name " ++ f.path ++ ".")
    | none => .error ("Illegal file name " ++ f.path ++ ".")

/-- The file loop of `Mft::run`: process the files in the order given,
aborting on the first failure. -/
def mftFiles : List MFile → Except String (List (String × List Nat))
  | [] => .ok []
  | f :: rest =>
    match processFile f with
    | .error e => .error e
    | .ok entry =>
      match mftFiles rest with
      | .error e => .error e
      | .ok entries => .ok (entry :: entries)

/-- `rpki::manifest::ManifestContent` as assembled by `Mft::run`. -/
structure ManifestContent where
  number : Nat
  thisUpdate : Time
  nextUpdate : Time
  entries : List (String × List Nat)
deriving DecidableEq, Repr

/-! ## Base64 and TAL text -/

/-- The standard base64 alphabet used by `base64::encode`. -/
def b64Alphabet : List Char :=
  "ABCDEFGHIJKLMNOPQRSTUVWXYZabcdefghijklmnopqrstuvwxyz0123456789+/".data

def b64Char (n : Nat) : Char := b64Alphabet.getD n '?'

/-- `base64::encode` with padding, three input bytes per four output
characters. -/
def base64Chars : List Nat → List Char
  | [] => []
  | [a] => [b64Char (a / 4), b64Char (a % 4 * 16), '=', '=']
  | [a, b] => [b64Char (a / 4), b64Char (a % 4 * 16 + b / 16),
               b64Char (b % 16 * 4), '=']
  | a :: b :: c :: rest =>
    b64Char (a / 4) :: b64Char (a % 4 * 16 + b / 16) ::
    b64Char (b % 16 * 4 + c / 64) :: b64Char (c % 64) :: base64Chars rest

def base64Encode (bs : List Nat) : String := String.mk (base64Chars bs)

/-- Split a character list at every occurrence of `c` (never empty). -/
def splitAll (c : Char) : PChars → List PChars
  | [] => [[]]
  | x :: xs =>
    let t := splitAll c xs
    if x = c then [] :: t
    else
      match t with
      | [] => [[x]]
      | h :: rest => (x :: h) :: rest

/-- The lines of a text, in the sense the spec counts them: the segments
between newline characters. -/
def linesOf (s : String) : List String := (splitAll '\n' s.data).map String.mk

/-- The TAL text assembled at the end of `Ta::run` (lines 259–268): the rsync
URI line, the optional HTTPS URI line, a blank line, and the base64 of the
subject key info, each newline-terminated. -/
def talText (rsyncUri : String) (httpsUri : Option String)
    (keyPub : PublicKey) : String :=
  let tal := rsyncUri ++ "\n"
  let tal :=
    match httpsUri with
    | some u => tal ++ u ++ "\n"
    | none => tal
  let tal := tal ++ "\n"
  tal ++ base64Encode keyPub.toInfoBytes ++ "\n"

/-! ## The issuance pipelines

Each subcommand's `run` is embedded as a function of its parsed arguments and
an environment describing the external collaborators, returning the trace of
observable effects performed (in order) together with the result.  The signer
is invoked through `unwrap!`, so a signing failure aborts the process rather
than returning; in the model the `sign` effect always succeeds. -/

/-- An observable effect of a run. -/
inductive Effect where
  | loadKey (path : String) (ok : Bool)
  | readFile (path : String) (ok : Bool)
  | sign
  | save (path : String) (ok : Bool)
deriving DecidableEq, Repr

abbrev Trace := List Effect

/-- Modelled from the spec: the external collaborators — the key store, the
file system and the clock. -/
structure Env where
  now : Time
  keyFor : String → Option PublicKey
  fileFor : String → Option (List Nat)
  decodePub : List Nat → Option PublicKey
  saveOk : String → Bool

def Effect.isSign : Effect → Bool
  | .sign => true
  | _ => false

def Effect.isSave : Effect → Bool
  | .save _ _ => true
  | _ => false

/-- True when a trace neither invokes the signing capability nor touches an
output file. -/
def noSignNoSave (t : Trace) : Bool :=
  t.all (fun e => !e.isSign && !e.isSave)

def exOk {ε α : Type _} : Except ε α → Bool
  | .ok _ => true
  | .error _ => false

def exErr {ε α : Type _} : Except ε α → Bool
  | .ok _ => false
  | .error _ => true

def saveErrMsg (path : String) : String := "Failed to write to file " ++ path

/-! ### The `ta` subcommand -/

structure TaArgs where
  key : String
  serial : Nat
  notBefore : Option Time
  notAfter : Option Time
  validDays : Option Int
  caRepository : String
  rpkiManifest : String
  rpkiNotify : Option String
  v4Resources : List IpBlock
  v6Resources : List IpBlock
  asResources : List AsBlock
  talRsyncUri : String
  talHttpsUri : Option String
  outputTa : String
  outputTal : Option String

structure TaOutput where
  cert : TbsCert
  tal : Option String
deriving DecidableEq, Repr

/-- The certificate construction of `Ta::run` (lines 229–253): self-issued,
key usage CA, overclaim Refuse, AKI from the subject's own key, repository
and manifest URIs always set, notify URI only when supplied, and a family's
explicit resources attached only when the supplied list is non-empty. -/
def taBuildCert (a : TaArgs) (keyPub : PublicKey) (validity : Validity) :
    TbsCert :=
  let cert := TbsCert.new a.serial keyPub.toSubjectName validity keyPub
    .ca .refuse
  let cert := { cert with
    basicCa := some true,
    authorityKeyIdentifier := some keyPub.keyIdentifier,
    caRepository := some a.caRepository,
    rpkiManifest := some a.rpkiManifest }
  let cert :=
    match a.rpkiNotify with
    | some u => { cert with rpkiNotify := some u }
    | none => cert
  let cert :=
    if !a.v4Resources.isEmpty then
      { cert with v4Resources := .blocks a.v4Resources }
    else cert
  let cert :=
    if !a.v6Resources.isEmpty then
      { cert with v6Resources := .blocks a.v6Resources }
    else cert
  let cert :=
    if !a.asResources.isEmpty then
      { cert with asResources := .blocks a.asResources }
    else cert
  cert

/-- `Ta::run`: load the key, resolve the validity, build and sign the
certificate, write it, then optionally assemble and write the TAL. -/
def taRun (a : TaArgs) (env : Env) : Trace × Except String TaOutput :=
  match env.keyFor a.key with
  | none => ([.loadKey a.key false], .error ("Invalid issuer key " ++ a.key))
  | some keyPub =>
    let t0 : Trace := [.loadKey a.key true]
    let notBefore := a.notBefore.getD env.now
    match resolveValidity notBefore a.notAfter a.validDays validityMsg with
    | .error e => (t0, .error e)
    | .ok validity =>
      let cert := taBuildCert a keyPub validity
      let t1 := t0 ++ [Effect.sign]
      if env.saveOk a.outputTa then
        let t2 := t1 ++ [Effect.save a.outputTa true]
        match a.outputTal with
        | none => (t2, .ok ⟨cert, none⟩)
        | some talPath =>
          let tal := talText a.talRsyncUri a.talHttpsUri keyPub
          if env.saveOk talPath then
            (t2 ++ [Effect.save talPath true], .ok ⟨cert, some tal⟩)
          else
            (t2 ++ [Effect.save talPath false], .error (saveErrMsg talPath))
      else
        (t1 ++ [Effect.save a.outputTa false], .error (saveErrMsg a.outputTa))

/-! ### The `cer` subcommand -/

structure CertArgs where
  issuerKey : String
  subjectKey : String
  serial : Nat
  notBefore : Option Time
  notAfter : Option Time
  validDays : Option Int
  trimResources : Bool
  crlUri : String
  caIssuer : String
  caRepository : String
  rpkiManifest : String
  rpkiNotify : Option String
  v4Resources : List IpBlock
  inheritV4 : Bool
  v6Resources : List IpBlock
  inheritV6 : Bool
  asResources : List AsBlock
  inheritAs : Bool
  output : String

structure CertOutput where
  cert : TbsCert
deriving DecidableEq, Repr

/-- The certificate construction of `Cert::run` (lines 382–418): issuer
identity from the issuer key, subject key supplied externally, overclaim
policy selectable, CRL/CA-issuer URIs set, and per family: the inherit flag
wins, else a non-empty list is attached, else the extension stays absent. -/
def certBuildCert (a : CertArgs) (issuerPub : PublicKey)
    (subjectKey : PublicKey) (validity : Validity) : TbsCert :=
  let cert := TbsCert.new a.serial issuerPub.toSubjectName validity
    subjectKey .ca (if a.trimResources then .trim else .refuse)
  let cert := { cert with
    basicCa := some true,
    authorityKeyIdentifier := some issuerPub.keyIdentifier,
    crlUri := some a.crlUri,
    caIssuer := some a.caIssuer,
    caRepository := some a.caRepository,
    rpkiManifest := some a.rpkiManifest }
  let cert :=
    match a.rpkiNotify with
    | some u => { cert with rpkiNotify := some u }
    | none => cert
  let cert :=
    if a.inheritV4 then { cert with v4Resources := .inherited }
    else if !a.v4Resources.isEmpty then
      { cert with v4Resources := .blocks a.v4Resources }
    else cert
  let cert :=
    if a.inheritV6 then { cert with v6Resources := .inherited }
    else if !a.v6Resources.isEmpty then
      { cert with v6Resources := .blocks a.v6Resources }
    else cert
  let cert :=
    if a.inheritAs then { cert with asResources := .inherited }
    else if !a.asResources.isEmpty then
      { cert with asResources := .blocks a.asResources }
    else cert
  cert

/-- `Cert::run`: load the issuer key, load and decode the subject key,
resolve the validity, build and sign the certificate, write it. -/
def certRun (a : CertArgs) (env : Env) : Trace × Except String CertOutput :=
  match env.keyFor a.issuerKey with
  | none => ([.loadKey a.issuerKey false],
             .error ("Invalid issuer key " ++ a.issuerKey))
  | some issuerPub =>
    let t0 : Trace := [.loadKey a.issuerKey true]
    match env.fileFor a.subjectKey with
    | none => (t0 ++ [.readFile a.subjectKey false],
               .error ("Failed to open file " ++ a.subjectKey))
    | some bytes =>
      let t1 := t0 ++ [Effect.readFile a.subjectKey true]
      match env.decodePub bytes with
      | none => (t1, .error "Failed to load subject public key")
      | some subjectKey =>
        let notBefore := a.notBefore.getD env.now
        match resolveValidity notBefore a.notAfter a.validDays validityMsg with
        | .error e => (t1, .error e)
        | .ok validity =>
          let cert := certBuildCert a issuerPub subjectKey validity
          let t2 := t1 ++ [Effect.sign]
          if env.saveOk a.output then
            (t2 ++ [Effect.save a.output true], .ok ⟨cert⟩)
          else
            (t2 ++ [Effect.save a.output false], .error (saveErrMsg a.output))

/-! ### The `crl` subcommand -/

structure CrlArgs where
  issuerKey : String
  thisUpdate : Option Time
  nextUpdate : Option Time
  nextDays : Option Int
  revokedCerts : List (Nat × Time)
  crlNumber : Nat
  output : String

structure CrlOutput where
  crl : TbsCertList
deriving DecidableEq, Repr

/-- `Crl::run`: load the key, resolve this/next update, assemble the CRL with
the revoked entries in the order given, sign and write it. -/
def crlRun (a : CrlArgs) (env : Env) : Trace × Except String CrlOutput :=
  match env.keyFor a.issuerKey with
  | none => ([.loadKey a.issuerKey false],
             .error ("Invalid issuer key " ++ a.issuerKey))
  | some issuerPub =>
    let t0 : Trace := [.loadKey a.issuerKey true]
    let thisUpdate := a.thisUpdate.getD env.now
    match resolveEnd thisUpdate a.nextUpdate a.nextDays nextUpdateMsg with
    | .error e => (t0, .error e)
    | .ok nextUpdate =>
      let crl : TbsCertList :=
        ⟨issuerPub.toSubjectName, thisUpdate, nextUpdate, a.revokedCerts,
         issuerPub.keyIdentifier, a.crlNumber⟩
      let t1 := t0 ++ [Effect.sign]
      if env.saveOk a.output then
        (t1 ++ [Effect.save a.output true], .ok ⟨crl⟩)
      else
        (t1 ++ [Effect.save a.output false], .error (saveErrMsg a.output))

/-! ### The `roa` subcommand -/

structure RoaArgs where
  issuerKey : String
  serial : Nat
  notBefore : Option Time
  notAfter : Option Time
  validDays : Option Int
  crlUri : String
  caIssuer : String
  signedObject : String
  asn : Nat
  prefixes : List RoaPrefix
  output : String

/-- The signed ROA content together with its envelope inputs. -/
structure RoaOutput where
  asn : Nat
  v4 : List RoaIpAddress
  v6 : List RoaIpAddress
  validity : Validity
deriving DecidableEq, Repr

/-- `Roa::run`: partition the parsed prefixes by family, load the key,
resolve the validity, assemble, sign and write the ROA. -/
def roaRun (a : RoaArgs) (env : Env) : Trace × Except String RoaOutput :=
  let parts := roaPartition a.prefixes
  match env.keyFor a.issuerKey with
  | none => ([.loadKey a.issuerKey false],
             .error ("Invalid issuer key " ++ a.issuerKey))
  | some _ =>
    let t0 : Trace := [.loadKey a.issuerKey true]
    let notBefore := a.notBefore.getD env.now
    match resolveValidity notBefore a.notAfter a.validDays validityMsg with
    | .error e => (t0, .error e)
    | .ok validity =>
      let t1 := t0 ++ [Effect.sign]
      if env.saveOk a.output then
        (t1 ++ [Effect.save a.output true],
         .ok ⟨a.asn, parts.1, parts.2, validity⟩)
      else
        (t1 ++ [Effect.save a.output false], .error (saveErrMsg a.output))

/-! ### The `mft` subcommand -/

structure MftArgs where
  issuerKey : String
  serial : Nat
  notBefore : Option Time
  notAfter : Option Time
  validDays : Option Int
  crlUri : String
  caIssuer : String
  number : Nat
  signedObject : String
  thisUpdate : Option Time
  nextUpdate : Option Time
  nextDays : Option Int
  files : List MFile
  output : String

structure MftOutput where
  manifest : ManifestContent
  validity : Validity
deriving DecidableEq, Repr

/-- `Mft::run`: load the key, resolve the validity and the this/next update
pair, digest the files in order, assemble, sign and write the manifest. -/
def mftRun (a : MftArgs) (env : Env) : Trace × Except String MftOutput :=
  match env.keyFor a.issuerKey with
  | none => ([.loadKey a.issuerKey false],
             .error ("Invalid issuer key " ++ a.issuerKey))
  | some _ =>
    let t0 : Trace := [.loadKey a.issuerKey true]
    let notBefore := a.notBefore.getD env.now
    match resolveValidity notBefore a.notAfter a.validDays validityMsg with
    | .error e => (t0, .error e)
    | .ok validity =>
      let thisUpdate := a.thisUpdate.getD env.now
      match resolveEnd thisUpdate a.nextUpdate a.nextDays nextUpdateMsg with
      | .error e => (t0, .error e)
      | .ok nextUpdate =>
        match mftFiles a.files with
        | .error e => (t0, .error e)
        | .ok entries =>
          let content : ManifestContent :=
            ⟨a.number, thisUpdate, nextUpdate, entries⟩
          let t1 := t0 ++ [Effect.sign]
          if env.saveOk a.output then
            (t1 ++ [Effect.save a.output true], .ok ⟨content, validity⟩)
          else
            (t1 ++ [Effect.save a.output false],
             .error (saveErrMsg a.output))

/-! ## Demonstration inputs used by the witnesses and counterexamples -/

/-- A key the demonstration environments hand out. -/
def demoKey : PublicKey := ⟨[1, 2, 3]⟩

/-- An environment in which every collaborator succeeds. -/
def demoEnv : Env :=
  { now := 0,
    keyFor := fun _ => some demoKey,
    fileFor := fun _ => some [9, 9],
    decodePub := fun _ => some ⟨[7]⟩,
    saveOk := fun _ => true }

/-- CRL arguments supplying both an explicit next-update and a day count. -/
def demoCrlArgs : CrlArgs :=
  { issuerKey := "issuer.key", thisUpdate := some 0, nextUpdate := some 7,
    nextDays := some 3, revokedCerts := [], crlNumber := 1,
    output := "out.crl" }

/-- The output the demonstration CRL run produces. -/
def demoCrlOut : CrlOutput :=
  ⟨⟨demoKey.toSubjectName, 0, 7, [], demoKey.keyIdentifier, 1⟩⟩

/-- The trust-anchor arguments of the spec's example scenario: a TAL is
requested and no secondary HTTPS URI is supplied. -/
def c8Args : TaArgs :=
  { key := "ta.key", serial := 1, notBefore := some 0, notAfter := some 86400,
    validDays := none, caRepository := "rsync://r/", rpkiManifest :=
    "rsync://r/m.mft", rpkiNotify := none, v4Resources := [], v6Resources :=
    [], asResources := [], talRsyncUri := "rsync://r/ta.cer", talHttpsUri :=
    none, outputTa := "ta.cer", outputTal := some "ta.tal" }

/-- The TAL text the example trust-anchor run emits. -/
def c8Tal : String :=
  match (taRun c8Args demoEnv).2 with
  | .ok out => out.tal.getD ""
  | .error _ => ""

/-- CA certificate arguments realizing the spec's example: `--inherit-v4`
together with an explicit `--v4` list, an `--as` list, no v6 options. -/
def demoCertArgs : CertArgs :=
  { issuerKey := "issuer.key", subjectKey := "subject.pub", serial := 2,
    notBefore := some 0, notAfter := some 864000, validDays := none,
    trimResources := false, crlUri := "rsync://r/c.crl",
    caIssuer := "rsync://r/i.cer", caRepository := "rsync://r/",
    rpkiManifest := "rsync://r/m.mft", rpkiNotify := none,
    v4Resources := [⟨167772160, 184549375⟩], inheritV4 := true,
    v6Resources := [], inheritV6 := false,
    asResources := [⟨64512, 64512⟩], inheritAs := false,
    output := "out.cer" }

/-- The CA certificate the demonstration run produces. -/
def demoCertOut : CertOutput :=
  match (certRun demoCertArgs demoEnv).2 with
  | .ok o => o
  | .error _ => ⟨TbsCert.new 0 (.ofKey ⟨[]⟩) ⟨0, 0⟩ ⟨[]⟩ .ca .refuse⟩

/-- The trust-anchor certificate the example run produces. -/
def demoTaOut : TaOutput :=
  match (taRun c8Args demoEnv).2 with
  | .ok o => o
  | .error _ => ⟨TbsCert.new 0 (.ofKey ⟨[]⟩) ⟨0, 0⟩ ⟨[]⟩ .ca .refuse, none⟩

/-- Trust-anchor arguments missing both validity-end options. -/
def c6TaArgs : TaArgs := { c8Args with notAfter := none, validDays := none }

/-- CA arguments missing both validity-end options. -/
def c6CertArgs : CertArgs :=
  { demoCertArgs with notAfter := none, validDays := none }

/-- ROA arguments missing both validity-end options. -/
def c6RoaArgs : RoaArgs :=
  { issuerKey := "issuer.key", serial := 3, notBefore := some 0,
    notAfter := none, validDays := none, crlUri := "rsync://r/c.crl",
    caIssuer := "rsync://r/i.cer", signedObject := "rsync://r/r.roa",
    asn := 64512, prefixes := [], output := "out.roa" }

/-- Manifest arguments missing both validity-end options. -/
def c6MftArgs : MftArgs :=
  { issuerKey := "issuer.key", serial := 4, notBefore := some 0,
    notAfter := none, validDays := none, crlUri := "rsync://r/c.crl",
    caIssuer := "rsync://r/i.cer", number := 1,
    signedObject := "rsync://r/m.mft", thisUpdate := some 0,
    nextUpdate := some 5, nextDays := none, files := [],
    output := "out.mft" }

/-- CRL arguments missing both next-update options. -/
def c6CrlArgs : CrlArgs :=
  { demoCrlArgs with nextUpdate := none, nextDays := none }

/-- An openable manifest input file named `b.txt`. -/
def demoFileB : MFile := ⟨"/repo/b.txt", none, some "b.txt", [[1, 2]], none⟩

/-- An openable manifest input file named `a.txt`. -/
def demoFileA : MFile := ⟨"/repo/a.txt", none, some "a.txt", [[3]], none⟩

/-- A manifest input file that cannot be opened. -/
def demoFileX : MFile := ⟨"/repo/x.txt", some "denied", some "x.txt", [], none⟩

/-- The spec's order example: files supplied as `[b.txt, a.txt]`. -/
def demoMftFiles : List MFile := [demoFileB, demoFileA]

/-- A file list whose middle entry fails to open. -/
def demoBadFiles : List MFile := [demoFileB, demoFileX, demoFileA]

/-! ## Helper lemmas -/

/-! Sanity checks of the embedding on concrete inputs. -/

example : parseIpAddrChars "10.0.0.0".data = some (.v4 10 0 0 0) := by decide

example : parseIpAddrChars "2001:db8::".data
    = some (.v6 [8193, 3512, 0, 0, 0, 0, 0, 0]) := by decide

example : parseIpAddrChars "::1".data
    = some (.v6 [0, 0, 0, 0, 0, 0, 0, 1]) := by decide

example : parseIpAddrChars "1.2.3.4.5".data = none := by decide

example : parseIpAddrChars "10.0.0.256".data = none := by decide

example : parseIpAddrChars "01.2.3.4".data = none := by decide

example : parseIpAddrChars "1:2:3:4:5:6:7:8".data
    = some (.v6 [1, 2, 3, 4, 5, 6, 7, 8]) := by decide

example : parseIpAddrChars "::ffff:1.2.3.4".data
    = some (.v6 [0, 0, 0, 0, 0, 65535, 258, 772]) := by decide

example : parseIpAddrChars "1:::2".data = none := by decide

example : parseIpAddrChars "".data = none := by decide

example : RoaPrefix.fromStr "10.0.0.0/8"
    = .ok ⟨true, ⟨.v4 10 0 0 0, 8, none⟩⟩ := by decide

example : RoaPrefix.fromStr "2001:db8::/32-48"
    = .ok ⟨false, ⟨.v6 [8193, 3512, 0, 0, 0, 0, 0, 0], 32, some 48⟩⟩ := by
  decide

example : RoaPrefix.fromStr "10.0.0.0" = .error "Invalid ROA prefix '10.0.0.0'" := by
  decide

example : RoaPrefix.fromStr "10.0.0.0/8-abc"
    = .error "Invalid ROA prefix '10.0.0.0/8-abc'" := by decide

example : RoaPrefix.fromStr "10.0.0.0/24-8"
    = .ok ⟨true, ⟨.v4 10 0 0 0, 24, some 8⟩⟩ := by decide

example : base64Encode [1, 2, 3] = "AQID" := by decide

example : base64Encode [77] = "TQ==" := by decide

example : linesOf "a\n\nb\n" = ["a", "", "b", ""] := by decide

theorem splitFirst_eq_none {c : Char} {cs : PChars} (h : c ∉ cs) :
    splitFirst c cs = none := by
  induction cs with
  | nil => rfl
  | cons x xs ih =>
    simp only [List.mem_cons, not_or] at h
    simp [splitFirst, Ne.symm h.1, ih h.2]

theorem splitFirst_append {c : Char} {xs ys : PChars} (h : c ∉ xs) :
    splitFirst c (xs ++ c :: ys) = some (xs, ys) := by
  induction xs with
  | nil => simp [splitFirst]
  | cons x xs ih =>
    simp only [List.mem_cons, not_or] at h
    simp [splitFirst, Ne.symm h.1, ih h.2]

theorem splitAll_eq_single {c : Char} {cs : PChars} (h : c ∉ cs) :
    splitAll c cs = [cs] := by
  induction cs with
  | nil => rfl
  | cons x xs ih =>
    simp only [List.mem_cons, not_or] at h
    simp [splitAll, Ne.symm h.1, ih h.2]

theorem splitAll_append {c : Char} {xs ys : PChars} (h : c ∉ xs) :
    splitAll c (xs ++ c :: ys) = xs :: splitAll c ys := by
  induction xs with
  | nil => simp [splitAll]
  | cons x xs ih =>
    simp only [List.mem_cons, not_or] at h
    simp only [List.cons_append, splitAll, if_neg (Ne.symm h.1)]
    rw [List.append_eq, ih h.2]

theorem getD_mem_cons (l : List Char) (n : Nat) (d : Char) :
    l.getD n d ∈ d :: l := by
  induction l generalizing n with
  | nil => simp [List.getD]
  | cons x xs ih =>
    cases n with
    | zero => simp [List.getD]
    | succ m =>
      rw [List.getD_cons_succ]
      rcases List.mem_cons.1 (ih m) with h | h
      · exact List.mem_cons.2 (Or.inl h)
      · exact List.mem_cons.2 (Or.inr (List.mem_cons.2 (Or.inr h)))

theorem b64Char_ne_newline (n : Nat) : b64Char n ≠ '\n' := by
  intro he
  have h := getD_mem_cons b64Alphabet n '?'
  rw [show b64Alphabet.getD n '?' = b64Char n from rfl, he] at h
  revert h
  decide

theorem newline_not_mem_base64Chars (bs : List Nat) :
    '\n' ∉ base64Chars bs := by
  induction bs using base64Chars.induct with
  | case1 => simp [base64Chars]
  | case2 a =>
    simp only [base64Chars, List.mem_cons, List.not_mem_nil, or_false]
    push_neg
    refine ⟨?_, ?_, by decide, by decide⟩ <;>
      exact fun he => b64Char_ne_newline _ he.symm
  | case3 a b =>
    simp only [base64Chars, List.mem_cons, List.not_mem_nil, or_false]
    push_neg
    refine ⟨?_, ?_, ?_, by decide⟩ <;>
      exact fun he => b64Char_ne_newline _ he.symm
  | case4 a b c rest ih =>
    simp only [base64Chars, List.cons_append, List.nil_append,
      List.mem_cons, not_or]
    refine ⟨?_, ?_, ?_, ?_, ih⟩ <;>
      exact fun he => b64Char_ne_newline _ he.symm

/-! ## Claim theorems -/

/-- Claim C2: for every issuance that resolves a validity or update pair, an
explicit end time wins even when a day count is also supplied (the day count
is ignored); a day count alone yields start plus that many days; neither
yields a configuration error.  The last two conjuncts ground the precedence
in the CRL issuance itself. -/
theorem c2_end_time_resolution :
    (∀ (s e : Time) (d : Option Int) (msg : String),
      resolveEnd s (some e) d msg = .ok e)
    ∧ (∀ (s : Time) (d : Int) (msg : String),
      resolveEnd s none (some d) msg = .ok (s + durationDays d))
    ∧ (∀ (s : Time) (msg : String),
      resolveEnd s none none msg = .error msg)
    ∧ (∀ (a : CrlArgs) (env : Env) (out : CrlOutput) (t : Time),
      (crlRun a env).2 = .ok out → a.nextUpdate = some t →
      out.crl.nextUpdate = t)
    ∧ (∀ (a : CrlArgs) (env : Env) (out : CrlOutput) (d : Int),
      (crlRun a env).2 = .ok out → a.nextUpdate = none →
      a.nextDays = some d →
      out.crl.nextUpdate = a.thisUpdate.getD env.now + durationDays d) := by
  refine ⟨fun s e d msg => rfl, fun s d msg => rfl, fun s msg => rfl,
    ?_, ?_⟩
  · intro a env out t h hnext
    unfold crlRun at h
    cases hk : env.keyFor a.issuerKey with
    | none => rw [hk] at h; simp at h
    | some ip =>
      rw [hk, hnext] at h
      simp only [resolveEnd] at h
      split at h
      · cases h; rfl
      · simp at h
  · intro a env out d h hnext hdays
    unfold crlRun at h
    cases hk : env.keyFor a.issuerKey with
    | none => rw [hk] at h; simp at h
    | some ip =>
      rw [hk, hnext, hdays] at h
      simp only [resolveEnd] at h
      split at h
      · cases h; rfl
      · simp at h

/-- Witness for C2 at concrete inputs: an explicit end time beats a supplied
day count, both in the resolver and in a CRL run supplying both options. -/
theorem c2_witness :
    resolveEnd 0 (some 5) (some 3) "m" = .ok 5 ∧
    demoCrlOut.crl.nextUpdate = 7 := by
  refine ⟨c2_end_time_resolution.1 0 5 (some 3) "m", ?_⟩
  exact c2_end_time_resolution.2.2.2.1 demoCrlArgs demoEnv demoCrlOut 7
    (by decide) rfl

/-- Counterexample to claim C3 as stated: the validity resolver accepts an
explicit not-after equal to the not-before, and the resolved pair violates
`not_before < not_after`. -/
theorem c3_counterexample :
    resolveValidity 0 (some 0) none validityMsg = .ok ⟨0, 0⟩ ∧
    ¬ ((Validity.mk 0 0).notBefore < (Validity.mk 0 0).notAfter) := by
  exact ⟨rfl, by decide⟩

/-- Claim C3 as amended: the resolver performs no ordering check — every
accepted input yields not-before equal to the start time and not-after equal
to the explicit end time (when supplied) or start plus the day count, and
`not_before < not_after` holds exactly when the explicit end time is later
than the start, respectively when the day count is positive. -/
theorem c3_validity_resolution (nb : Time) (e : Option Time) (d : Option Int)
    (msg : String) (v : Validity)
    (h : resolveValidity nb e d msg = .ok v) :
    v.notBefore = nb ∧
    (match e with
     | some t => v.notAfter = t
     | none => ∃ dd, d = some dd ∧ v.notAfter = nb + durationDays dd) ∧
    (v.notBefore < v.notAfter ↔
      (match e, d with
       | some t, _ => nb < t
       | none, some dd => 0 < dd
       | none, none => True)) := by
  cases e with
  | some t =>
    simp only [resolveValidity, resolveEnd, Except.map] at h
    cases h
    refine ⟨rfl, rfl, Iff.rfl⟩
  | none =>
    cases d with
    | some dd =>
      simp only [resolveValidity, resolveEnd, Except.map] at h
      cases h
      refine ⟨rfl, ⟨dd, rfl, rfl⟩, ?_⟩
      show nb < nb + 86400 * dd ↔ 0 < dd
      rw [lt_add_iff_pos_right]
      exact mul_pos_iff_of_pos_left (by norm_num)
    | none => simp [resolveValidity, resolveEnd, Except.map] at h

/-- Witness for C3 (amended) at a concrete accepted input. -/
theorem c3_witness :
    (Validity.mk 0 5).notBefore = 0 ∧
    (Validity.mk 0 5).notAfter = 5 ∧
    ((Validity.mk 0 5).notBefore < (Validity.mk 0 5).notAfter ↔
      (0 : Int) < 5) := by
  exact c3_validity_resolution 0 (some 5) none "m" ⟨0, 5⟩ rfl

/-- Claim C9: in a trust-anchor run requesting a TAL, the certificate file is
written before the TAL is assembled; when writing the TAL then fails, the run
returns an error while the trace already holds the successful certificate
write — the two outputs are not atomic as a pair. -/
theorem c9_cert_written_before_tal (a : TaArgs) (env : Env) (k : PublicKey)
    (talPath : String) (na : Time)
    (hk : env.keyFor a.key = some k)
    (htal : a.outputTal = some talPath)
    (hna : a.notAfter = some na)
    (hsc : env.saveOk a.outputTa = true)
    (hst : env.saveOk talPath = false) :
    taRun a env =
      ([.loadKey a.key true, .sign, .save a.outputTa true,
        .save talPath false],
       .error (saveErrMsg talPath)) := by
  unfold taRun
  rw [hk, hna, htal]
  simp [resolveValidity, resolveEnd, Except.map, hsc, hst]

/-- Witness for C9 at a concrete run. -/
theorem c9_witness :
    taRun c8Args { demoEnv with saveOk := fun p => p ≠ "ta.tal" } =
      ([.loadKey "ta.key" true, .sign, .save "ta.cer" true,
        .save "ta.tal" false],
       .error (saveErrMsg "ta.tal")) := by
  exact c9_cert_written_before_tal c8Args
    { demoEnv with saveOk := fun p => p ≠ "ta.tal" } demoKey "ta.tal" 86400
    rfl rfl rfl (by decide) (by decide)

/-- Claim C10: in the manifest file lister each file is opened before its
name is validated — a file that cannot be opened is reported with the
cannot-open error whatever its name looks like, while an openable path whose
final segment is missing, not UTF-8, or not ASCII is reported with the
illegal-file-name error. -/
theorem c10_open_before_name (f : MFile) :
    (∀ e, f.openErr = some e →
      processFile f = .error ("Cannot open file " ++ f.path ++ ": " ++ e)) ∧
    (f.openErr = none → f.fileName = none →
      processFile f = .error ("Illegal file name " ++ f.path ++ ".")) ∧
    (∀ n, f.openErr = none → f.fileName = some n → isAsciiStr n = false →
      processFile f = .error ("Illegal file name " ++ f.path ++ ".")) := by
  refine ⟨?_, ?_, ?_⟩
  · intro e he
    simp [processFile, he]
  · intro ho hn
    simp [processFile, ho, hn]
  · intro n ho hn hascii
    simp [processFile, ho, hn, hascii]

/-- Witness for C10: an unopenable file with a non-ASCII name gets the I/O
error; an openable file with a non-ASCII name gets the name error. -/
theorem c10_witness :
    processFile ⟨"/x/bäd", some "denied", some "bäd", [], none⟩ =
      .error "Cannot open file /x/bäd: denied" ∧
    processFile ⟨"/x/bäd", none, some "bäd", [[1]], none⟩ =
      .error "Illegal file name /x/bäd." := by
  constructor
  · exact (c10_open_before_name ⟨"/x/bäd", some "denied", some "bäd", [],
      none⟩).1 "denied" rfl
  · exact (c10_open_before_name ⟨"/x/bäd", none, some "bäd", [[1]],
      none⟩).2.2 "bäd" rfl rfl (by decide)

theorem certRun_ok_cert {a : CertArgs} {env : Env} {out : CertOutput}
    (h : (certRun a env).2 = .ok out) :
    ∃ ip sk v, out.cert = certBuildCert a ip sk v := by
  unfold certRun at h
  cases hk : env.keyFor a.issuerKey with
  | none => simp only [hk] at h; simp at h
  | some ip =>
    simp only [hk] at h
    cases hf : env.fileFor a.subjectKey with
    | none => simp only [hf] at h; simp at h
    | some bytes =>
      simp only [hf] at h
      cases hd : env.decodePub bytes with
      | none => simp only [hd] at h; simp at h
      | some sk =>
        simp only [hd] at h
        cases hv : resolveValidity (a.notBefore.getD env.now) a.notAfter
            a.validDays validityMsg with
        | error e => simp only [hv] at h; simp at h
        | ok validity =>
          simp only [hv] at h
          split at h
          · cases h; exact ⟨ip, sk, validity, rfl⟩
          · simp at h

theorem certBuildCert_v4Resources (a : CertArgs) (ip sk : PublicKey)
    (v : Validity) :
    (certBuildCert a ip sk v).v4Resources =
      (if a.inheritV4 then .inherited
       else if !a.v4Resources.isEmpty then .blocks a.v4Resources
       else .absent) := by
  unfold certBuildCert TbsCert.new
  cases a.rpkiNotify <;>
    by_cases h4 : a.inheritV4 <;>
    by_cases hl : a.v4Resources.isEmpty <;>
    simp [h4, hl, apply_ite TbsCert.v4Resources]

theorem certBuildCert_v6Resources (a : CertArgs) (ip sk : PublicKey)
    (v : Validity) :
    (certBuildCert a ip sk v).v6Resources =
      (if a.inheritV6 then .inherited
       else if !a.v6Resources.isEmpty then .blocks a.v6Resources
       else .absent) := by
  unfold certBuildCert TbsCert.new
  cases a.rpkiNotify <;>
    by_cases h6 : a.inheritV6 <;>
    by_cases hl : a.v6Resources.isEmpty <;>
    simp [h6, hl, apply_ite TbsCert.v6Resources]

theorem certBuildCert_asResources (a : CertArgs) (ip sk : PublicKey)
    (v : Validity) :
    (certBuildCert a ip sk v).asResources =
      (if a.inheritAs then .inherited
       else if !a.asResources.isEmpty then .blocks a.asResources
       else .absent) := by
  unfold certBuildCert TbsCert.new
  cases a.rpkiNotify <;>
    by_cases ha : a.inheritAs <;>
    by_cases hl : a.asResources.isEmpty <;>
    simp [ha, hl, apply_ite TbsCert.asResources]

theorem taRun_ok_cert {a : TaArgs} {env : Env} {k : PublicKey}
    {out : TaOutput} (hk : env.keyFor a.key = some k)
    (h : (taRun a env).2 = .ok out) :
    ∃ v, out.cert = taBuildCert a k v := by
  unfold taRun at h
  simp only [hk] at h
  cases hv : resolveValidity (a.notBefore.getD env.now) a.notAfter
      a.validDays validityMsg with
  | error e => simp only [hv] at h; simp at h
  | ok validity =>
    simp only [hv] at h
    refine ⟨validity, ?_⟩
    split at h
    · split at h
      · cases h; rfl
      · split at h
        · cases h; rfl
        · simp at h
    · simp at h

theorem taRun_ok_tal {a : TaArgs} {env : Env} {k : PublicKey}
    {out : TaOutput} {t : String} (hk : env.keyFor a.key = some k)
    (h : (taRun a env).2 = .ok out) (ht : out.tal = some t) :
    t = talText a.talRsyncUri a.talHttpsUri k := by
  unfold taRun at h
  simp only [hk] at h
  cases hv : resolveValidity (a.notBefore.getD env.now) a.notAfter
      a.validDays validityMsg with
  | error e => simp only [hv] at h; simp at h
  | ok validity =>
    simp only [hv] at h
    split at h
    · split at h
      · cases h; simp at ht
      · split at h
        · cases h; simp only [Option.some.injEq] at ht; exact ht.symm
        · simp at h
    · simp at h

theorem taBuildCert_fields (a : TaArgs) (k : PublicKey) (v : Validity) :
    (taBuildCert a k v).issuer = k.toSubjectName ∧
    (taBuildCert a k v).subjectPublicKey = k ∧
    (taBuildCert a k v).authorityKeyIdentifier = some k.keyIdentifier ∧
    (taBuildCert a k v).crlUri = none ∧
    (taBuildCert a k v).caIssuer = none ∧
    (taBuildCert a k v).caRepository = some a.caRepository ∧
    (taBuildCert a k v).rpkiManifest = some a.rpkiManifest ∧
    (taBuildCert a k v).keyUsage = .ca ∧
    (taBuildCert a k v).overclaim = .refuse := by
  unfold taBuildCert TbsCert.new
  cases a.rpkiNotify <;>
    by_cases h4 : a.v4Resources.isEmpty <;>
    by_cases h6 : a.v6Resources.isEmpty <;>
    by_cases ha : a.asResources.isEmpty <;>
    simp [h4, h6, ha]

/-- Claim C1: in a CA certificate issuance, independently per family — the
inherit flag yields the Inherit extension whatever block list is supplied; no
inherit flag with a non-empty list yields the Explicit extension with that
list in order; no inherit flag with an empty list leaves the family's
extension absent. -/
theorem c1_ca_resource_families (a : CertArgs) (env : Env) (out : CertOutput)
    (h : (certRun a env).2 = .ok out) :
    ((a.inheritV4 = true → out.cert.v4Resources = .inherited) ∧
     (a.inheritV4 = false → a.v4Resources ≠ [] →
       out.cert.v4Resources = .blocks a.v4Resources) ∧
     (a.inheritV4 = false → a.v4Resources = [] →
       out.cert.v4Resources = .absent)) ∧
    ((a.inheritV6 = true → out.cert.v6Resources = .inherited) ∧
     (a.inheritV6 = false → a.v6Resources ≠ [] →
       out.cert.v6Resources = .blocks a.v6Resources) ∧
     (a.inheritV6 = false → a.v6Resources = [] →
       out.cert.v6Resources = .absent)) ∧
    ((a.inheritAs = true → out.cert.asResources = .inherited) ∧
     (a.inheritAs = false → a.asResources ≠ [] →
       out.cert.asResources = .blocks a.asResources) ∧
     (a.inheritAs = false → a.asResources = [] →
       out.cert.asResources = .absent)) := by
  obtain ⟨ip, sk, v, hc⟩ := certRun_ok_cert h
  rw [hc, certBuildCert_v4Resources, certBuildCert_v6Resources,
    certBuildCert_asResources]
  refine ⟨⟨?_, ?_, ?_⟩, ⟨?_, ?_, ?_⟩, ⟨?_, ?_, ?_⟩⟩ <;> intro hi <;>
    first
      | (intro hl; simp [hi, hl])
      | simp [hi]

/-- Witness for C1: the spec's example CA run — inherit-v4 with an explicit
v4 list yields Inherit, the non-empty AS list yields Explicit, the untouched
v6 family stays Absent. -/
theorem c1_witness :
    demoCertOut.cert.v4Resources = .inherited ∧
    demoCertOut.cert.asResources = .blocks demoCertArgs.asResources ∧
    demoCertOut.cert.v6Resources = .absent := by
  have h := c1_ca_resource_families demoCertArgs demoEnv demoCertOut
    (by decide)
  exact ⟨h.1.1 rfl, h.2.2.2.1 rfl (by decide), h.2.1.2.2 rfl rfl⟩

/-- Claim C6: an issuance supplied with neither an explicit end time nor a
day count aborts before the signing capability is invoked and creates no
output file: the trace holds no sign and no save effect and the run errors.
Stated for all five issuing subcommands. -/
theorem c6_missing_end_aborts :
    (∀ (a : TaArgs) (env : Env), a.notAfter = none → a.validDays = none →
      noSignNoSave (taRun a env).1 = true ∧ exErr (taRun a env).2 = true)
    ∧ (∀ (a : CertArgs) (env : Env), a.notAfter = none → a.validDays = none →
      noSignNoSave (certRun a env).1 = true ∧ exErr (certRun a env).2 = true)
    ∧ (∀ (a : RoaArgs) (env : Env), a.notAfter = none → a.validDays = none →
      noSignNoSave (roaRun a env).1 = true ∧ exErr (roaRun a env).2 = true)
    ∧ (∀ (a : MftArgs) (env : Env), a.notAfter = none → a.validDays = none →
      noSignNoSave (mftRun a env).1 = true ∧ exErr (mftRun a env).2 = true)
    ∧ (∀ (a : CrlArgs) (env : Env), a.nextUpdate = none → a.nextDays = none →
      noSignNoSave (crlRun a env).1 = true ∧ exErr (crlRun a env).2 = true)
    := by
  refine ⟨?_, ?_, ?_, ?_, ?_⟩
  · intro a env h1 h2
    unfold taRun
    cases hk : env.keyFor a.key with
    | none =>
      constructor <;>
        simp [noSignNoSave, Effect.isSign, Effect.isSave, exErr]
    | some k =>
      rw [h1, h2]
      constructor <;>
        simp [resolveValidity, resolveEnd, Except.map, noSignNoSave,
          Effect.isSign, Effect.isSave, exErr]
  · intro a env h1 h2
    unfold certRun
    rw [h1, h2]
    cases hk : env.keyFor a.issuerKey with
    | none =>
      constructor <;>
        simp [noSignNoSave, Effect.isSign, Effect.isSave, exErr]
    | some ip =>
      cases hf : env.fileFor a.subjectKey with
      | none =>
        constructor <;>
          simp [hf, noSignNoSave, Effect.isSign, Effect.isSave, exErr]
      | some bytes =>
        cases hd : env.decodePub bytes with
        | none =>
          constructor <;>
            simp [hf, hd, noSignNoSave, Effect.isSign, Effect.isSave, exErr]
        | some sk =>
          constructor <;>
            simp [hf, hd, resolveValidity, resolveEnd, Except.map,
              noSignNoSave, Effect.isSign, Effect.isSave, exErr]
  · intro a env h1 h2
    unfold roaRun
    rw [h1, h2]
    cases hk : env.keyFor a.issuerKey with
    | none =>
      constructor <;>
        simp [noSignNoSave, Effect.isSign, Effect.isSave, exErr]
    | some k =>
      constructor <;>
        simp [resolveValidity, resolveEnd, Except.map, noSignNoSave,
          Effect.isSign, Effect.isSave, exErr]
  · intro a env h1 h2
    unfold mftRun
    rw [h1, h2]
    cases hk : env.keyFor a.issuerKey with
    | none =>
      constructor <;>
        simp [noSignNoSave, Effect.isSign, Effect.isSave, exErr]
    | some k =>
      constructor <;>
        simp [resolveValidity, resolveEnd, Except.map, noSignNoSave,
          Effect.isSign, Effect.isSave, exErr]
  · intro a env h1 h2
    unfold crlRun
    rw [h1, h2]
    cases hk : env.keyFor a.issuerKey with
    | none =>
      constructor <;>
        simp [noSignNoSave, Effect.isSign, Effect.isSave, exErr]
    | some k =>
      constructor <;>
        simp [resolveEnd, noSignNoSave, Effect.isSign, Effect.isSave, exErr]

/-- Witness for C6 at concrete runs of all five subcommands. -/
theorem c6_witness :
    (noSignNoSave (taRun c6TaArgs demoEnv).1 = true ∧
     exErr (taRun c6TaArgs demoEnv).2 = true) ∧
    (noSignNoSave (certRun c6CertArgs demoEnv).1 = true ∧
     exErr (certRun c6CertArgs demoEnv).2 = true) ∧
    (noSignNoSave (roaRun c6RoaArgs demoEnv).1 = true ∧
     exErr (roaRun c6RoaArgs demoEnv).2 = true) ∧
    (noSignNoSave (mftRun c6MftArgs demoEnv).1 = true ∧
     exErr (mftRun c6MftArgs demoEnv).2 = true) ∧
    (noSignNoSave (crlRun c6CrlArgs demoEnv).1 = true ∧
     exErr (crlRun c6CrlArgs demoEnv).2 = true) := by
  refine ⟨?_, ?_, ?_, ?_, ?_⟩
  · exact c6_missing_end_aborts.1 c6TaArgs demoEnv rfl rfl
  · exact c6_missing_end_aborts.2.1 c6CertArgs demoEnv rfl rfl
  · exact c6_missing_end_aborts.2.2.1 c6RoaArgs demoEnv rfl rfl
  · exact c6_missing_end_aborts.2.2.2.1 c6MftArgs demoEnv rfl rfl
  · exact c6_missing_end_aborts.2.2.2.2 c6CrlArgs demoEnv rfl rfl

/-- Claim C7: every trust-anchor certificate is self-issued — its issuer
name and authority key identifier derive from the subject's own key, it
carries no CRL-distribution and no CA-issuer URI, always carries repository
and manifest URIs, its key usage is CA and its overclaim policy is Refuse
(the `ta` subcommand has no flag selecting Trim, so this holds for all
argument values). -/
theorem c7_ta_self_issued (a : TaArgs) (env : Env) (k : PublicKey)
    (out : TaOutput) (hk : env.keyFor a.key = some k)
    (h : (taRun a env).2 = .ok out) :
    out.cert.issuer = k.toSubjectName ∧
    out.cert.subjectPublicKey = k ∧
    out.cert.authorityKeyIdentifier = some k.keyIdentifier ∧
    out.cert.crlUri = none ∧
    out.cert.caIssuer = none ∧
    out.cert.caRepository = some a.caRepository ∧
    out.cert.rpkiManifest = some a.rpkiManifest ∧
    out.cert.keyUsage = .ca ∧
    out.cert.overclaim = .refuse := by
  obtain ⟨v, hc⟩ := taRun_ok_cert hk h
  rw [hc]
  exact taBuildCert_fields a k v

/-- Witness for C7 at the example trust-anchor run. -/
theorem c7_witness :
    demoTaOut.cert.issuer = demoKey.toSubjectName ∧
    demoTaOut.cert.subjectPublicKey = demoKey ∧
    demoTaOut.cert.authorityKeyIdentifier = some demoKey.keyIdentifier ∧
    demoTaOut.cert.crlUri = none ∧
    demoTaOut.cert.caIssuer = none ∧
    demoTaOut.cert.caRepository = some c8Args.caRepository ∧
    demoTaOut.cert.rpkiManifest = some c8Args.rpkiManifest ∧
    demoTaOut.cert.keyUsage = .ca ∧
    demoTaOut.cert.overclaim = .refuse := by
  exact c7_ta_self_issued c8Args demoEnv demoKey demoTaOut rfl (by decide)

theorem processFile_ok {f : MFile} {p : String × List Nat}
    (h : processFile f = .ok p) :
    f.openErr = none ∧ f.fileName = some p.1 ∧ isAsciiStr p.1 = true ∧
    fileBytes f = .ok p.2 := by
  unfold processFile at h
  cases ho : f.openErr with
  | some e => simp [ho] at h
  | none =>
    simp only [ho] at h
    cases hn : f.fileName with
    | none => simp [hn] at h
    | some name =>
      simp only [hn] at h
      by_cases ha : isAsciiStr name = true
      · rw [if_pos ha] at h
        cases hb : fileBytes f with
        | ok bytes => rw [hb] at h; cases h; exact ⟨rfl, rfl, ha, rfl⟩
        | error e => rw [hb] at h; simp at h
      · rw [if_neg ha] at h; simp at h

/-- Claim C5: the manifest file lister yields one `(name, digest)` entry per
input file, in exactly the order supplied (never sorted): entry `i` names
the final path segment of file `i` (which is ASCII) and carries the digest of
that file's full streamed content.  The second conjunct: the first failing
file aborts the whole listing with its error — no partial list is produced. -/
theorem c5_manifest_file_listing :
    (∀ (fs : List MFile) (l : List (String × List Nat)),
      mftFiles fs = .ok l →
      l.length = fs.length ∧
      ∀ (i : Nat) (hf : i < fs.length) (hl : i < l.length),
        (fs.get ⟨i, hf⟩).openErr = none ∧
        (fs.get ⟨i, hf⟩).fileName = some (l.get ⟨i, hl⟩).1 ∧
        isAsciiStr (l.get ⟨i, hl⟩).1 = true ∧
        fileBytes (fs.get ⟨i, hf⟩) = .ok (l.get ⟨i, hl⟩).2)
    ∧ (∀ (pre : List MFile) (f : MFile) (post : List MFile) (e : String),
      (∀ g ∈ pre, exOk (processFile g) = true) →
      processFile f = .error e →
      mftFiles (pre ++ f :: post) = .error e) := by
  constructor
  · intro fs
    induction fs with
    | nil =>
      intro l h
      unfold mftFiles at h
      cases h
      exact ⟨rfl, fun i hf hl => absurd hf (by simp)⟩
    | cons f rest ih =>
      intro l h
      unfold mftFiles at h
      cases hp : processFile f with
      | error e => rw [hp] at h; simp at h
      | ok entry =>
        rw [hp] at h
        cases hr : mftFiles rest with
        | error e => rw [hr] at h; simp at h
        | ok entries =>
          rw [hr] at h
          cases h
          obtain ⟨hlen, hpt⟩ := ih entries hr
          refine ⟨by simp [hlen], ?_⟩
          intro i hf hl
          cases i with
          | zero => simpa using processFile_ok hp
          | succ j =>
            have hfj : j < rest.length := by simpa using hf
            have hlj : j < entries.length := by simpa using hl
            simpa using hpt j hfj hlj
  · intro pre f post e
    induction pre with
    | nil =>
      intro _ hf
      simp [mftFiles, hf]
    | cons g rest ih =>
      intro hpre hf
      have hg := hpre g (by simp)
      cases hg2 : processFile g with
      | error e2 => rw [hg2] at hg; simp [exOk] at hg
      | ok p =>
        have htail := ih (fun x hx => hpre x (by simp [hx])) hf
        simp only [List.cons_append]
        unfold mftFiles
        rw [hg2, htail]

/-- Witness for C5: the two-file `[b.txt, a.txt]` listing keeps that order
and length; a middle file that cannot be opened aborts the whole listing
with its I/O error. -/
theorem c5_witness :
    ([("b.txt", [1, 2]), ("a.txt", [3])] :
        List (String × List Nat)).length = demoMftFiles.length ∧
    mftFiles demoBadFiles = .error "Cannot open file /repo/x.txt: denied" := by
  constructor
  · exact (c5_manifest_file_listing.1 demoMftFiles
      [("b.txt", [1, 2]), ("a.txt", [3])] (by decide)).1
  · exact c5_manifest_file_listing.2 [demoFileB] demoFileX [demoFileA]
      "Cannot open file /repo/x.txt: denied" (by decide) (by decide)

theorem splitAll_cons_self {c : Char} {xs : PChars} :
    splitAll c (c :: xs) = [] :: splitAll c xs := by
  simp [splitAll]

theorem data_mk (l : List Char) : (String.mk l).data = l := rfl

/-- Counterexample to claim C8 as stated: in the spec's example scenario (no
secondary URI supplied) the emitted TAL has the empty trailing segment on
line 4, while the base64 key info sits on line 3. -/
theorem c8_counterexample :
    (linesOf c8Tal).get? 3 = some "" ∧
    (linesOf c8Tal).get? 2 = some (base64Encode [1, 2, 3]) ∧
    base64Encode [1, 2, 3] ≠ "" := by
  decide

/-- Claim C8 as amended: the TAL text contains the rsync URI on line 1, the
secondary HTTPS URI on line 2 only when supplied, then a blank line, then one
line with the base64 subject key info — which is therefore line 3 when no
secondary URI is supplied and line 4 exactly when one is. -/
theorem c8_tal_layout (a : TaArgs) (env : Env) (k : PublicKey)
    (out : TaOutput) (t : String)
    (hk : env.keyFor a.key = some k)
    (h : (taRun a env).2 = .ok out)
    (ht : out.tal = some t)
    (hr : '\n' ∉ a.talRsyncUri.data)
    (hh : ∀ u, a.talHttpsUri = some u → '\n' ∉ u.data) :
    linesOf t =
      (match a.talHttpsUri with
       | none => [a.talRsyncUri, "", base64Encode k.info, ""]
       | some u => [a.talRsyncUri, u, "", base64Encode k.info, ""]) := by
  have htt := taRun_ok_tal hk h ht
  subst htt
  unfold talText linesOf
  cases hu : a.talHttpsUri with
  | none =>
    simp only [String.data_append, List.append_assoc, List.singleton_append,
      List.cons_append, List.nil_append, base64Encode, data_mk]
    rw [splitAll_append hr, splitAll_cons_self,
      splitAll_append (newline_not_mem_base64Chars k.toInfoBytes)]
    rfl
  | some u =>
    have hu2 := hh u hu
    simp only [String.data_append, List.append_assoc, List.singleton_append,
      List.cons_append, List.nil_append, base64Encode, data_mk]
    rw [splitAll_append hr, splitAll_append hu2, splitAll_cons_self,
      splitAll_append (newline_not_mem_base64Chars k.toInfoBytes)]
    rfl

/-- Witness for C8 (amended) at the example run: the base64 key info is on
line 3. -/
theorem c8_witness :
    linesOf c8Tal = [c8Args.talRsyncUri, "", base64Encode demoKey.info, ""] := by
  exact c8_tal_layout c8Args demoEnv demoKey demoTaOut c8Tal rfl (by decide)
    (by decide) (by decide) (fun u hu => by simp [c8Args] at hu)

theorem splitFirst_some_eq {c : Char} {cs x y : PChars}
    (h : splitFirst c cs = some (x, y)) : cs = x ++ c :: y := by
  induction cs generalizing x with
  | nil => simp [splitFirst] at h
  | cons z zs ih =>
    unfold splitFirst at h
    by_cases hz : z = c
    · rw [if_pos hz] at h
      cases h
      simp [hz]
    · rw [if_neg hz] at h
      cases hs : splitFirst c zs with
      | none => rw [hs] at h; simp at h
      | some p =>
        obtain ⟨p1, p2⟩ := p
        rw [hs] at h
        cases h
        simp [ih hs]

/-- Claim C4: the ROA prefix parser splits once on `-`, then once on `/`;
it fails with exactly the message naming the whole input when no `/` is
present, and otherwise succeeds exactly when the address segment is a valid
IP literal and the length/max-length segments are valid unsigned 8-bit
integers, inferring the family from the parsed address; the family flag
drives which per-family list of `Roa::run` the entry is appended to, in
order; no max-length ≥ length check is performed (last conjunct: a prefix
with max-length below the length parses fine). -/
theorem c4_roa_prefix_parse :
    (∀ s : String, '/' ∉ s.data →
      RoaPrefix.fromStr s = .error (roaErr s)) ∧
    (∀ a l : PChars, '-' ∉ a → '-' ∉ l → '/' ∉ a →
      RoaPrefix.fromStr (String.mk (a ++ '/' :: l)) =
        (match parseIpAddrChars a, parseU8 l with
         | some ip, some len => .ok ⟨ip.isV4, ⟨ip, len, none⟩⟩
         | _, _ => .error (roaErr (String.mk (a ++ '/' :: l))))) ∧
    (∀ a l m : PChars, '-' ∉ a → '-' ∉ l → '/' ∉ a →
      RoaPrefix.fromStr (String.mk (a ++ '/' :: l ++ '-' :: m)) =
        (match parseIpAddrChars a, parseU8 l, parseU8 m with
         | some ip, some len, some maxLen =>
             .ok ⟨ip.isV4, ⟨ip, len, some maxLen⟩⟩
         | _, _, _ =>
             .error (roaErr (String.mk (a ++ '/' :: l ++ '-' :: m))))) ∧
    (∀ ps : List RoaPrefix,
      roaPartition ps =
        ((ps.filter (fun p => p.v4)).map (fun p => p.pfx),
         (ps.filter (fun p => !p.v4)).map (fun p => p.pfx))) ∧
    RoaPrefix.fromStr "10.0.0.0/24-8" =
      .ok ⟨true, ⟨.v4 10 0 0 0, 24, some 8⟩⟩ := by
  refine ⟨?_, ?_, ?_, ?_, by decide⟩
  · intro s hs
    unfold RoaPrefix.fromStr
    cases hd : splitFirst '-' s.data with
    | none =>
      have h2 : splitFirst '/' s.data = none := splitFirst_eq_none hs
      simp only [hd, h2]
    | some p =>
      obtain ⟨a, b⟩ := p
      have hsub := splitFirst_some_eq hd
      have h2 : ('/' : Char) ∉ a := fun hmem =>
        hs (hsub ▸ List.mem_append_left _ hmem)
      simp only [hd, splitFirst_eq_none h2]
  · intro a l hda hdl hsa
    have hd : ('-' : Char) ∉ (a ++ '/' :: l) := by
      simp only [List.mem_append, List.mem_cons, not_or]
      exact ⟨hda, by decide, hdl⟩
    cases hip : parseIpAddrChars a <;> cases hl8 : parseU8 l <;>
      simp [RoaPrefix.fromStr, data_mk, splitFirst_eq_none hd,
        splitFirst_append hsa, hip, hl8]
  · intro a l m hda hdl hsa
    have hd : ('-' : Char) ∉ (a ++ '/' :: l) := by
      simp only [List.mem_append, List.mem_cons, not_or]
      exact ⟨hda, by decide, hdl⟩
    cases hip : parseIpAddrChars a <;> cases hl8 : parseU8 l <;>
      cases hm8 : parseU8 m <;>
      simp only [RoaPrefix.fromStr, data_mk, splitFirst_append hd,
        splitFirst_append hsa, hip, hl8, hm8]
  · intro ps
    induction ps with
    | nil => rfl
    | cons p rest ih =>
      cases hv : p.v4 <;> simp [roaPartition, List.filter, hv, ih]

/-- Witness for C4: the spec's round-trip examples, driven through the
parser theorem. -/
theorem c4_witness :
    RoaPrefix.fromStr (String.mk ("10.0.0.0".data ++ '/' :: "8".data)) =
      .ok ⟨true, ⟨.v4 10 0 0 0, 8, none⟩⟩ ∧
    RoaPrefix.fromStr
        (String.mk ("2001:db8::".data ++ '/' :: "32".data ++ '-' :: "48".data))
      = .ok ⟨false, ⟨.v6 [8193, 3512, 0, 0, 0, 0, 0, 0], 32, some 48⟩⟩ ∧
    RoaPrefix.fromStr "10.0.0.0" = .error (roaErr "10.0.0.0") := by
  refine ⟨?_, ?_, ?_⟩
  · rw [c4_roa_prefix_parse.2.1 "10.0.0.0".data "8".data (by decide)
      (by decide) (by decide)]
    decide
  · rw [c4_roa_prefix_parse.2.2.1 "2001:db8::".data "32".data "48".data
      (by decide) (by decide) (by decide)]
    decide
  · exact c4_roa_prefix_parse.1 "10.0.0.0" (by decide)
